import Mathlib

/-!
Verification of `dependency-confusion-finder.py` (directory
`dependency-confusion/using-sbom-to-find-dependency-confusion/`).

The script is a sequential pipeline: obtain a CycloneDX SBOM (either by
running an external scanner or from a given file), extract the sorted,
deduplicated list of purl strings, parse each purl into an
(ecosystem, name) identity, query the public registry for that name, and
write a text report.  The definitions below are a shallow embedding of
that pipeline; external effects (HTTP, subprocess, filesystem) are
modelled by explicit oracle values passed in.
-/

/-- Splitting a character list at the first occurrence of `sep`:
the semantics of Python `s.split(sep, 1)` when it returns two parts
(`none` when `sep` does not occur, in which case the Python two-target
unpacking raises `ValueError`). -/
def splitOnce (sep : Char) : List Char → Option (List Char × List Char)
  | [] => none
  | c :: cs =>
    if c = sep then some ([], cs)
    else
      match splitOnce sep cs with
      | none => none
      | some (a, b) => some (c :: a, b)

/-- Embedding of `extract_pkg_info` (lines 41-49): split once on `:` and
discard the scheme, split the remainder once on `/` into ecosystem and
rest, truncate the rest at the first `@`.  The `none` result models the
`except ValueError: return None, None` branch. -/
def extract_pkg_info (purl : String) : Option (String × String) :=
  match splitOnce ':' purl.data with
  | none => none
  | some (_, rest) =>
    match splitOnce '/' rest with
    | none => none
    | some (ecosystem, remainder) =>
      let pkg_name : List Char :=
        match splitOnce '@' remainder with
        | some (a, _) => a
        | none => remainder
      some (String.mk ecosystem, String.mk pkg_name)

/-- Lexicographic comparison of character lists by code point, the order
Python `sorted` uses on strings.  Executable by the kernel, unlike the
iterator-based order on `String`. -/
def lexLeb : List Char → List Char → Bool
  | [], _ => true
  | _ :: _, [] => false
  | a :: as, b :: bs =>
    if a < b then true
    else if a = b then lexLeb as bs
    else false

/-- The Python string order as a relation on `String`. -/
def strLe (a b : String) : Prop := lexLeb a.data b.data = true

instance strLe.decRel : DecidableRel strLe := fun _ _ => Bool.decEq _ _

/-- A CycloneDX component: only the optional `purl` field matters to the
script. -/
structure Component where
  purl : Option String
deriving DecidableEq

/-- A CycloneDX SBOM document as the script reads it: its `components`
list (`data.get("components", [])`). -/
structure Sbom where
  components : List Component
deriving DecidableEq

/-- Whether a component carries a truthy (present and non-empty) purl,
the guard `if comp.get("purl")` on line 35. -/
def hasPurl (c : Component) : Bool :=
  match c.purl with
  | some s => s != ""
  | none => false

/-- Embedding of the successful path of `parse_purls` (line 35):
`sorted({comp.get("purl") for comp in components if comp.get("purl")})`,
i.e. the sorted deduplication of the truthy purls.  The file-read and
JSON-decode failures of lines 31-38 are modelled in `runMain`. -/
def parse_purls (doc : Sbom) : List String :=
  List.insertionSort strLe
    (((doc.components.filterMap Component.purl).filter (fun s => s != "")).dedup)

/-- Outcome of one `requests.get`: an HTTP status, or a raised
`requests.RequestException` (timeout, connection error, DNS failure). -/
inductive FetchResult where
  | ok (status : Nat)
  | exc (msg : String)
deriving DecidableEq

/-- Result of `check_public_registry`: the returned value
(`some true` = exists, `some false` = not found, `none` = unknown),
the list of URLs actually fetched, and the stderr messages printed. -/
structure CheckResult where
  result : Option Bool
  requested : List String
  logs : List String
deriving DecidableEq

/-- The body of the `try` block of `check_public_registry`
(lines 61-70): one GET of `url`, mapping 404 to `False`, 200 to `True`,
any other status to `None` with a warning, and a network exception to
`None` with an error message. -/
def checkUrl (fetch : String → FetchResult) (ecosystem name url : String) : CheckResult :=
  match fetch url with
  | .ok s =>
    if s = 404 then ⟨some false, [url], []⟩
    else if s = 200 then ⟨some true, [url], []⟩
    else ⟨none, [url],
      ["Warning: Unexpected status " ++ toString s ++ " for " ++ ecosystem ++ "/" ++ name]⟩
  | .exc e =>
    ⟨none, [url],
      ["Error: Network error when checking " ++ ecosystem ++ "/" ++ name ++ ": " ++ e]⟩

/-- Embedding of `check_public_registry` (lines 52-70): the ecosystem
selects the registry URL template; any other ecosystem returns `None`
without fetching anything. -/
def check_public_registry (fetch : String → FetchResult) (ecosystem name : String) :
    CheckResult :=
  if ecosystem = "pypi" then
    checkUrl fetch ecosystem name ("https://pypi.org/pypi/" ++ name ++ "/json")
  else if ecosystem = "npm" then
    checkUrl fetch ecosystem name ("https://registry.npmjs.org/" ++ name)
  else ⟨none, [], []⟩

/-- The three verdicts of the specification. -/
inductive Verdict where
  | NotFoundPublicly
  | ExistsPublicly
  | Unknown
deriving DecidableEq

/-- The spec verdict corresponding to a `check_public_registry` return
value. -/
def verdictOf : Option Bool → Verdict
  | some false => Verdict.NotFoundPublicly
  | some true => Verdict.ExistsPublicly
  | none => Verdict.Unknown

/-- Python `f"{eco:<5}"`: left-aligned in a field of width five, padded
with spaces, never truncated. -/
def pad5 (s : String) : String :=
  s ++ String.mk (List.replicate (5 - s.length) ' ')

/-- One report line, by verdict (lines 141-146 of `main`). -/
def formatLine (eco name : String) (v : Option Bool) : String :=
  match v with
  | some false => "[OK]   " ++ pad5 eco ++ " " ++ name ++ " not found publicly"
  | some true => "[WARN] " ++ pad5 eco ++ " " ++ name ++ " EXISTS publicly - potential collision"
  | none => "[INFO] " ++ pad5 eco ++ " " ++ name ++ " unknown status or unsupported ecosystem"

/-- Python `"\n".join(lines)` (line 151). -/
def joinLines : List String → String
  | [] => ""
  | [l] => l
  | l :: ls => l ++ ("\n" ++ joinLines ls)

/-- Accumulated effects of the per-purl loop: report lines, stderr
messages, URLs fetched. -/
structure ProcOut where
  lines : List String
  logs : List String
  requested : List String
deriving DecidableEq

/-- One iteration of the loop on lines 135-146: parse the purl, skip it
(with a log line, no lookup, no report line) when parsing fails or
either part is empty, otherwise check the registry and emit one line. -/
def purlStep (fetch : String → FetchResult) (purl : String) : ProcOut :=
  match extract_pkg_info purl with
  | none => ⟨[], ["Skipping invalid PURL: " ++ purl], []⟩
  | some (eco, name) =>
    if eco = "" ∨ name = "" then ⟨[], ["Skipping invalid PURL: " ++ purl], []⟩
    else
      let c := check_public_registry fetch eco name
      ⟨[formatLine eco name c.result], c.logs, c.requested⟩

/-- The whole report-building loop (lines 134-146), in list order. -/
def processPurls (fetch : String → FetchResult) : List String → ProcOut
  | [] => ⟨[], [], []⟩
  | p :: ps =>
    let h := purlStep fetch p
    let t := processPurls fetch ps
    ⟨h.lines ++ t.lines, h.logs ++ t.logs, h.requested ++ t.requested⟩

/-- Whether a purl survives the loop guard: it parses and both parts are
non-empty, so it contributes exactly one report line. -/
def purlValid (p : String) : Bool :=
  match extract_pkg_info p with
  | some (eco, name) => (eco != "") && (name != "")
  | none => false

/-- A command-line option occurrence, as `argparse` sees it. -/
inductive Arg where
  | directory (p : String)
  | sbomIn (p : String)
  | sbomOut (p : String)
  | reportOut (p : String)
deriving DecidableEq

/-- The parsed argument record, with the `argparse` defaults of
lines 101-112. -/
structure Args where
  directory : Option String
  sbomIn : Option String
  sbomOut : String
  reportOut : String
deriving DecidableEq

/-- Defaults: no source selected, `sbom.json`,
`dependency_confusion_report.txt`. -/
def defaultArgs : Args :=
  ⟨none, none, "sbom.json", "dependency_confusion_report.txt"⟩

/-- Store one option occurrence (later occurrences overwrite earlier
ones, as in `argparse`). -/
def applyArg (a : Args) : Arg → Args
  | .directory p => { a with directory := some p }
  | .sbomIn p => { a with sbomIn := some p }
  | .sbomOut p => { a with sbomOut := p }
  | .reportOut p => { a with reportOut := p }

/-- Embedding of `parser.parse_args()` with the required mutually
exclusive group of lines 90-100: supplying both of `--directory` and
`--sbom-in`, or neither, is an argparse error (argparse exits with
status 2). -/
def parseArgs (argv : List Arg) : Except Unit Args :=
  let a := argv.foldl applyArg defaultArgs
  if a.directory.isSome && a.sbomIn.isSome then Except.error ()
  else if !a.directory.isSome && !a.sbomIn.isSome then Except.error ()
  else Except.ok a

/-- Whether the invocation mentions `--directory`. -/
def hasDir (argv : List Arg) : Bool :=
  argv.any (fun x => match x with | .directory _ => true | _ => false)

/-- Whether the invocation mentions `--sbom-in`. -/
def hasSbomIn (argv : List Arg) : Bool :=
  argv.any (fun x => match x with | .sbomIn _ => true | _ => false)

/-- The external world of one run: whether Trivy is installed, whether
the scan subprocess fails (with its nonzero exit code), the outcome of
reading and JSON-decoding the SBOM file, whether the report file is
writable, and the registry HTTP oracle. -/
structure Env where
  trivyPresent : Bool
  scanExit : Option Nat
  sbomRead : Except Unit Sbom
  writeOk : Bool
  fetch : String → FetchResult

/-- Observable outcome of a run: the process exit status, whether the
help text was printed, and the report content written (if any). -/
structure RunOutcome where
  exitCode : Nat
  printedHelp : Bool
  reportWritten : Option String
deriving DecidableEq

/-- SBOM source resolution (lines 120-126): with `--sbom-in` the given
file is used as-is; otherwise `check_trivy` exits 1 when Trivy is
missing and `generate_sbom` exits with the scan's own code when the
subprocess fails. -/
def resolveSbomSource (args : Args) (env : Env) : Except Nat Unit :=
  match args.sbomIn with
  | some _ => Except.ok ()
  | none =>
    if env.trivyPresent = false then Except.error 1
    else
      match env.scanExit with
      | some code => Except.error code
      | none => Except.ok ()

/-- Embedding of `main` (lines 73-155): empty argv prints help and exits
1 (lines 114-116); argparse rejection exits 2; in directory mode a
missing Trivy exits 1 (`check_trivy`) and a failing scan exits with the
scan tool's own code (`generate_sbom`, lines 18-26); an unreadable or
malformed SBOM exits 1 (`parse_purls`, lines 36-38); then the report is
built and written, a write failure exiting 1 (lines 149-155). -/
def runMain (argv : List Arg) (env : Env) : RunOutcome :=
  if argv = [] then ⟨1, true, none⟩
  else
    match parseArgs argv with
    | .error _ => ⟨2, false, none⟩
    | .ok args =>
      match resolveSbomSource args env with
      | .error c => ⟨c, false, none⟩
      | .ok _ =>
        match env.sbomRead with
        | .error _ => ⟨1, false, none⟩
        | .ok doc =>
          let proc := processPurls env.fetch (parse_purls doc)
          if env.writeOk then ⟨0, false, some (joinLines proc.lines)⟩
          else ⟨1, false, none⟩

/-- Registry oracle that answers 404 to everything. -/
def fetch404 : String → FetchResult := fun _ => FetchResult.ok 404

/-- Registry oracle of the end-to-end scenario of the specification:
`requests` exists on PyPI, `left-pad` is absent from npm. -/
def fetchMock : String → FetchResult := fun url =>
  if url = "https://pypi.org/pypi/requests/json" then FetchResult.ok 200
  else if url = "https://registry.npmjs.org/left-pad" then FetchResult.ok 404
  else FetchResult.exc "unexpected request"

/-- The end-to-end scenario SBOM of the specification: `requests` once
and `left-pad` twice under the identical purl. -/
def specDoc : Sbom :=
  ⟨[⟨some "pkg:pypi/requests@2.31.0"⟩, ⟨some "pkg:npm/left-pad@1.0.0"⟩,
    ⟨some "pkg:npm/left-pad@1.0.0"⟩]⟩

/-- An SBOM listing one package identity under two distinct purls (two
versions of npm `left-pad`). -/
def twoVersionsDoc : Sbom :=
  ⟨[⟨some "pkg:npm/left-pad@1.0.0"⟩, ⟨some "pkg:npm/left-pad@1.0.1"⟩]⟩

/-- A fully healthy environment, used to instantiate theorems. -/
def envOk : Env := ⟨true, none, Except.ok ⟨[]⟩, true, fetch404⟩

/-- Environment whose SBOM file is missing or malformed. -/
def envParseFail : Env := ⟨true, none, Except.error (), true, fetch404⟩

/-- Environment whose report destination is unwritable. -/
def envWriteFail : Env := ⟨true, none, Except.ok ⟨[]⟩, false, fetch404⟩

/-- Environment whose scan subprocess fails with exit code 5. -/
def envScanFail : Env := ⟨true, some 5, Except.error (), true, fetch404⟩


theorem lexLeb_cons {a b : Char} {as bs : List Char} :
    lexLeb (a :: as) (b :: bs) = true ↔ a < b ∨ (a = b ∧ lexLeb as bs = true) := by
  simp only [lexLeb]
  split_ifs with h₁ h₂
  · simp [h₁]
  · simp [h₁, h₂]
  · simp [h₁, h₂]

theorem lexLeb_total : ∀ a b : List Char, lexLeb a b = true ∨ lexLeb b a = true
  | [], _ => Or.inl rfl
  | _ :: _, [] => Or.inr rfl
  | a :: as, b :: bs => by
    rcases lt_trichotomy a b with h | h | h
    · exact Or.inl (lexLeb_cons.mpr (Or.inl h))
    · subst h
      rcases lexLeb_total as bs with ih | ih
      · exact Or.inl (lexLeb_cons.mpr (Or.inr ⟨rfl, ih⟩))
      · exact Or.inr (lexLeb_cons.mpr (Or.inr ⟨rfl, ih⟩))
    · exact Or.inr (lexLeb_cons.mpr (Or.inl h))

theorem lexLeb_trans : ∀ a b c : List Char,
    lexLeb a b = true → lexLeb b c = true → lexLeb a c = true
  | [], _, _, _, _ => rfl
  | _ :: _, [], _, h, _ => by simp [lexLeb] at h
  | _ :: _, _ :: _, [], _, h => by simp [lexLeb] at h
  | a :: as, b :: bs, c :: cs, h₁, h₂ => by
    rw [lexLeb_cons] at h₁ h₂ ⊢
    rcases h₁ with h₁ | ⟨rfl, h₁⟩
    · rcases h₂ with h₂ | ⟨rfl, h₂⟩
      · exact Or.inl (lt_trans h₁ h₂)
      · exact Or.inl h₁
    · rcases h₂ with h₂ | ⟨rfl, h₂⟩
      · exact Or.inl h₂
      · exact Or.inr ⟨rfl, lexLeb_trans as bs cs h₁ h₂⟩

theorem lexLeb_not_lt : ∀ {a b : List Char}, lexLeb a b = true → ¬ b < a
  | [], b, _ => by intro h; cases h
  | _ :: _, [], h => by simp [lexLeb] at h
  | a :: as, b :: bs, h₁ => by
    intro h₂
    rw [lexLeb_cons] at h₁
    cases h₂ with
    | cons h => rcases h₁ with h₁ | ⟨-, h₁⟩
                · exact absurd h₁ (lt_irrefl _)
                · exact absurd h (lexLeb_not_lt h₁)
    | rel h => rcases h₁ with h₁ | ⟨rfl, h₁⟩
               · exact absurd (lt_trans h h₁) (lt_irrefl _)
               · exact absurd h (lt_irrefl _)

theorem strLe_le {a b : String} (h : strLe a b) : a ≤ b := by
  intro hlt
  rw [String.lt_iff_toList_lt] at hlt
  exact lexLeb_not_lt h hlt

theorem splitOnce_append {sep : Char} : ∀ {a : List Char} (b : List Char), sep ∉ a →
    splitOnce sep (a ++ sep :: b) = some (a, b)
  | [], b, _ => by simp [splitOnce]
  | x :: xs, b, h => by
    have hx : ¬ x = sep := fun hh => h (hh ▸ List.mem_cons_self x xs)
    have hxs : sep ∉ xs := fun hh => h (List.mem_cons_of_mem _ hh)
    simp only [List.cons_append, splitOnce, if_neg hx, List.append_eq,
      splitOnce_append b hxs]

theorem splitOnce_of_not_mem {sep : Char} : ∀ {l : List Char}, sep ∉ l → splitOnce sep l = none
  | [], _ => rfl
  | x :: xs, h => by
    have hx : ¬ x = sep := fun hh => h (hh ▸ List.mem_cons_self x xs)
    have hxs : sep ∉ xs := fun hh => h (List.mem_cons_of_mem _ hh)
    simp only [splitOnce, if_neg hx, splitOnce_of_not_mem hxs]

theorem splitOnce_parts {sep : Char} : ∀ {l a b : List Char},
    splitOnce sep l = some (a, b) → l = a ++ sep :: b ∧ sep ∉ a := by
  intro l
  induction l with
  | nil => intro a b h; simp [splitOnce] at h
  | cons x xs ih =>
    intro a b h
    by_cases hx : x = sep
    · subst hx
      rw [splitOnce, if_pos rfl] at h
      cases h
      exact ⟨rfl, by simp⟩
    · simp only [splitOnce, if_neg hx] at h
      cases hsp : splitOnce sep xs with
      | none => rw [hsp] at h; cases h
      | some ab =>
        obtain ⟨a', b'⟩ := ab
        rw [hsp] at h
        cases h
        obtain ⟨hl, hna⟩ := ih hsp
        refine ⟨by rw [hl]; rfl, ?_⟩
        intro hmem
        rcases List.mem_cons.mp hmem with h1 | h1
        · exact hx h1.symm
        · exact hna h1

theorem splitOnce_isSome_of_mem {sep : Char} : ∀ {l : List Char}, sep ∈ l →
    (splitOnce sep l).isSome = true := by
  intro l
  induction l with
  | nil => intro h; cases h
  | cons x xs ih =>
    intro h
    by_cases hx : x = sep
    · subst hx; simp [splitOnce]
    · rcases List.mem_cons.mp h with h1 | h1
      · exact absurd h1.symm hx
      · have hs := ih h1
        simp only [splitOnce, if_neg hx]
        cases hsp : splitOnce sep xs with
        | none => rw [hsp] at hs; simp at hs
        | some ab => obtain ⟨a', b'⟩ := ab; simp

theorem splitOnce_first_keeps_mem {sep c : Char} : ∀ {l a b : List Char},
    l = a ++ sep :: b → c ∈ b → ∃ a₀ b₀, splitOnce sep l = some (a₀, b₀) ∧ c ∈ b₀ := by
  intro l
  induction l with
  | nil =>
    intro a b h hc
    exact absurd h.symm (by cases a <;> simp)
  | cons x xs ih =>
    intro a b h hc
    by_cases hx : x = sep
    · subst hx
      refine ⟨[], xs, by simp [splitOnce], ?_⟩
      cases a with
      | nil =>
        simp only [List.nil_append, List.cons.injEq] at h
        rw [h.2]
        exact hc
      | cons y a' =>
        simp only [List.cons_append, List.cons.injEq] at h
        rw [h.2]
        exact List.mem_append.mpr (Or.inr (List.mem_cons_of_mem _ hc))
    · cases a with
      | nil =>
        simp only [List.nil_append, List.cons.injEq] at h
        exact absurd h.1 hx
      | cons y a' =>
        simp only [List.cons_append, List.cons.injEq] at h
        obtain ⟨a₀, b₀, hsp, hc0⟩ := ih h.2 hc
        refine ⟨x :: a₀, b₀, ?_, hc0⟩
        simp [splitOnce, if_neg hx, hsp]

theorem parse_purls_sorted (doc : Sbom) : (parse_purls doc).Sorted (· ≤ ·) := by
  haveI : IsTotal String strLe := ⟨fun a b => lexLeb_total a.data b.data⟩
  haveI : IsTrans String strLe := ⟨fun a b c => lexLeb_trans a.data b.data c.data⟩
  exact (List.sorted_insertionSort strLe _).imp fun h => strLe_le h

theorem parse_purls_nodup (doc : Sbom) : (parse_purls doc).Nodup :=
  (List.perm_insertionSort strLe _).nodup_iff.mpr (List.nodup_dedup _)

theorem parse_purls_all_ne (doc : Sbom) :
    (parse_purls doc).all (fun s => s != "") = true := by
  rw [List.all_eq_true]
  intro s hs
  have h1 : s ∈ ((doc.components.filterMap Component.purl).filter (fun s => s != "")).dedup :=
    ((List.perm_insertionSort strLe _).mem_iff).mp hs
  have h2 : s ∈ (doc.components.filterMap Component.purl).filter (fun s => s != "") :=
    List.mem_dedup.mp h1
  exact (List.mem_filter.mp h2).2

theorem purls_filter_count : ∀ comps : List Component,
    ((comps.filterMap Component.purl).filter (fun s => s != "")).length
      = comps.countP hasPurl := by
  intro comps
  induction comps with
  | nil => rfl
  | cons c cs ih =>
    cases hc : c.purl with
    | none => simp [List.filterMap_cons, hc, List.countP_cons, hasPurl, ih]
    | some s =>
      by_cases hs : s = ""
      · subst hs
        simp [List.filterMap_cons, hc, List.countP_cons, hasPurl, ih, List.filter_cons]
      · simp [List.filterMap_cons, hc, List.countP_cons, hasPurl, ih, hs, List.filter_cons]

/-- C2: for every CycloneDX document, the extracted purl sequence is
sorted lexically, duplicate-free, consists of non-empty strings only,
and has size at most the number K of components carrying a non-empty
purl (components without one are skipped). -/
theorem parse_purls_contract (doc : Sbom) :
    (parse_purls doc).Sorted (· ≤ ·)
    ∧ (parse_purls doc).Nodup
    ∧ (parse_purls doc).all (fun s => s != "") = true
    ∧ (parse_purls doc).length ≤ doc.components.countP hasPurl := by
  refine ⟨parse_purls_sorted doc, parse_purls_nodup doc, parse_purls_all_ne doc, ?_⟩
  have hlen : (parse_purls doc).length
      = ((doc.components.filterMap Component.purl).filter (fun s => s != "")).dedup.length :=
    (List.perm_insertionSort strLe _).length_eq
  rw [hlen, ← purls_filter_count doc.components]
  exact (List.dedup_sublist _).length_le

/-- C3: identity parsing splits once on the first colon to discard the
scheme, once on the first slash to separate the ecosystem, and truncates
at the first at-sign; in particular `pkg:npm/left-pad@1.0.0` parses to
`("npm", "left-pad")`. -/
theorem extract_pkg_info_shape :
    (∀ scheme eco name tl : String,
      ':' ∉ scheme.data → '/' ∉ eco.data → '@' ∉ name.data →
      extract_pkg_info (scheme ++ ":" ++ eco ++ "/" ++ name ++ "@" ++ tl) = some (eco, name))
    ∧ (∀ scheme eco name : String,
      ':' ∉ scheme.data → '/' ∉ eco.data → '@' ∉ name.data →
      extract_pkg_info (scheme ++ ":" ++ eco ++ "/" ++ name) = some (eco, name))
    ∧ extract_pkg_info "pkg:npm/left-pad@1.0.0" = some ("npm", "left-pad") := by
  refine ⟨?_, ?_, by decide⟩
  · intro scheme eco name tl h1 h2 h3
    have hdata : (scheme ++ ":" ++ eco ++ "/" ++ name ++ "@" ++ tl).data
        = scheme.data ++ ':' :: (eco.data ++ '/' :: (name.data ++ '@' :: tl.data)) := by
      simp [String.data_append, List.append_assoc, List.singleton_append]
    unfold extract_pkg_info
    rw [hdata]
    simp only [splitOnce_append _ h1, splitOnce_append _ h2, splitOnce_append _ h3]
  · intro scheme eco name h1 h2 h3
    have hdata : (scheme ++ ":" ++ eco ++ "/" ++ name).data
        = scheme.data ++ ':' :: (eco.data ++ '/' :: name.data) := by
      simp [String.data_append, List.append_assoc, List.singleton_append]
    unfold extract_pkg_info
    rw [hdata]
    simp only [splitOnce_append _ h1, splitOnce_append _ h2, splitOnce_of_not_mem h3]

/-- Witness for C3 at concrete inputs. -/
theorem extract_pkg_info_shape_witness :
    extract_pkg_info ("pkg" ++ ":" ++ "npm" ++ "/" ++ "lodash" ++ "@" ++ "4.17.21")
        = some ("npm", "lodash")
    ∧ extract_pkg_info ("pkg" ++ ":" ++ "pypi" ++ "/" ++ "requests")
        = some ("pypi", "requests") :=
  ⟨extract_pkg_info_shape.1 "pkg" "npm" "lodash" "4.17.21"
      (by decide) (by decide) (by decide),
   extract_pkg_info_shape.2.1 "pkg" "pypi" "requests"
      (by decide) (by decide) (by decide)⟩

theorem purlStep_lines_length (fetch : String → FetchResult) (p : String) :
    (purlStep fetch p).lines.length = if purlValid p then 1 else 0 := by
  cases hx : extract_pkg_info p with
  | none => simp [purlStep, purlValid, hx]
  | some en =>
    obtain ⟨eco, name⟩ := en
    by_cases he : eco = "" ∨ name = ""
    · have hb : ((eco != "") && (name != "")) = false := by
        rcases he with h | h <;> simp [h]
      simp [purlStep, purlValid, hx, if_pos he, hb]
    · push_neg at he
      have hne : ¬ (eco = "" ∨ name = "") := by
        rw [not_or]
        exact ⟨he.1, he.2⟩
      have hb : ((eco != "") && (name != "")) = true := by simp [he.1, he.2]
      simp [purlStep, purlValid, hx, if_neg hne, hb]

theorem processPurls_lines_length (fetch : String → FetchResult) :
    ∀ purls : List String,
      (processPurls fetch purls).lines.length = purls.countP purlValid := by
  intro purls
  induction purls with
  | nil => rfl
  | cons p ps ih =>
    show ((purlStep fetch p).lines ++ (processPurls fetch ps).lines).length = _
    rw [List.length_append, purlStep_lines_length, ih, List.countP_cons]
    by_cases h : purlValid p = true
    · simp [h]
      omega
    · simp [h]

theorem processPurls_skip (fetch : String → FetchResult) (purl : String)
    (hstep : purlStep fetch purl = ⟨[], ["Skipping invalid PURL: " ++ purl], []⟩) :
    ∀ pre post : List String,
      (processPurls fetch (pre ++ purl :: post)).lines
          = (processPurls fetch (pre ++ post)).lines
      ∧ (processPurls fetch (pre ++ purl :: post)).requested
          = (processPurls fetch (pre ++ post)).requested
      ∧ ("Skipping invalid PURL: " ++ purl) ∈ (processPurls fetch (pre ++ purl :: post)).logs := by
  intro pre
  induction pre with
  | nil =>
    intro post
    refine ⟨?_, ?_, ?_⟩
    · show ((purlStep fetch purl).lines ++ (processPurls fetch post).lines)
          = (processPurls fetch post).lines
      rw [hstep]
      rfl
    · show ((purlStep fetch purl).requested ++ (processPurls fetch post).requested)
          = (processPurls fetch post).requested
      rw [hstep]
      rfl
    · show ("Skipping invalid PURL: " ++ purl)
          ∈ (purlStep fetch purl).logs ++ (processPurls fetch post).logs
      rw [hstep]
      exact List.mem_append.mpr (Or.inl (List.mem_cons_self _ _))
  | cons q pre ih =>
    intro post
    obtain ⟨ih1, ih2, ih3⟩ := ih post
    refine ⟨?_, ?_, ?_⟩
    · show (purlStep fetch q).lines ++ (processPurls fetch (pre ++ purl :: post)).lines
          = (purlStep fetch q).lines ++ (processPurls fetch (pre ++ post)).lines
      rw [ih1]
    · show (purlStep fetch q).requested ++ (processPurls fetch (pre ++ purl :: post)).requested
          = (purlStep fetch q).requested ++ (processPurls fetch (pre ++ post)).requested
      rw [ih2]
    · show ("Skipping invalid PURL: " ++ purl)
          ∈ (purlStep fetch q).logs ++ (processPurls fetch (pre ++ purl :: post)).logs
      exact List.mem_append.mpr (Or.inr ih3)

/-- C5: a purl on which identity parsing fails is skipped: it is logged
as invalid, triggers no registry request, contributes no report line,
and the remaining purls are processed exactly as if it were absent. -/
theorem invalid_purl_skipped (fetch : String → FetchResult) (purl : String)
    (pre post : List String) (h : extract_pkg_info purl = none) :
    (processPurls fetch (pre ++ purl :: post)).lines
        = (processPurls fetch (pre ++ post)).lines
    ∧ (processPurls fetch (pre ++ purl :: post)).requested
        = (processPurls fetch (pre ++ post)).requested
    ∧ ("Skipping invalid PURL: " ++ purl) ∈ (processPurls fetch (pre ++ purl :: post)).logs := by
  have hstep : purlStep fetch purl = ⟨[], ["Skipping invalid PURL: " ++ purl], []⟩ := by
    unfold purlStep
    rw [h]
  exact processPurls_skip fetch purl hstep pre post

/-- Witness for C5: a purl without a colon is logged and dropped while
its neighbour is still processed. -/
theorem invalid_purl_skipped_witness :
    extract_pkg_info "no-colon-here" = none
    ∧ (processPurls fetch404 ["pkg:npm/left-pad@1.0.0", "no-colon-here"]).lines
        = (processPurls fetch404 ["pkg:npm/left-pad@1.0.0"]).lines
    ∧ ("Skipping invalid PURL: " ++ "no-colon-here")
        ∈ (processPurls fetch404 ["pkg:npm/left-pad@1.0.0", "no-colon-here"]).logs := by
  have h : extract_pkg_info "no-colon-here" = none := by decide
  have w := invalid_purl_skipped fetch404 "no-colon-here" ["pkg:npm/left-pad@1.0.0"] [] h
  exact ⟨h, w.1, w.2.2⟩

/-- C10: a purl whose parsed ecosystem or version-stripped name is empty
is treated like a shape-level parse failure, although the split-based
parse itself succeeded: logged as invalid, no registry lookup, no report
line, processing continues. -/
theorem empty_identity_skipped (fetch : String → FetchResult) (purl eco name : String)
    (pre post : List String) (h : extract_pkg_info purl = some (eco, name))
    (he : eco = "" ∨ name = "") :
    (processPurls fetch (pre ++ purl :: post)).lines
        = (processPurls fetch (pre ++ post)).lines
    ∧ (processPurls fetch (pre ++ purl :: post)).requested
        = (processPurls fetch (pre ++ post)).requested
    ∧ ("Skipping invalid PURL: " ++ purl) ∈ (processPurls fetch (pre ++ purl :: post)).logs := by
  have hstep : purlStep fetch purl = ⟨[], ["Skipping invalid PURL: " ++ purl], []⟩ := by
    simp only [purlStep, h, if_pos he]
  exact processPurls_skip fetch purl hstep pre post

/-- Witness for C10 at the two concrete purls named by the claim. -/
theorem empty_identity_skipped_witness :
    extract_pkg_info "pkg:/name" = some ("", "name")
    ∧ extract_pkg_info "pkg:npm/@1.0.0" = some ("npm", "")
    ∧ (processPurls fetch404 ["pkg:/name"]).lines = []
    ∧ (processPurls fetch404 ["pkg:/name"]).requested = []
    ∧ ("Skipping invalid PURL: " ++ "pkg:/name") ∈ (processPurls fetch404 ["pkg:/name"]).logs
    ∧ ("Skipping invalid PURL: " ++ "pkg:npm/@1.0.0")
        ∈ (processPurls fetch404 ["pkg:npm/@1.0.0"]).logs := by
  have h1 : extract_pkg_info "pkg:/name" = some ("", "name") := by decide
  have h2 : extract_pkg_info "pkg:npm/@1.0.0" = some ("npm", "") := by decide
  have w1 := empty_identity_skipped fetch404 "pkg:/name" "" "name" [] [] h1 (Or.inl rfl)
  have w2 := empty_identity_skipped fetch404 "pkg:npm/@1.0.0" "npm" "" [] [] h2 (Or.inr rfl)
  exact ⟨h1, h2, w1.1, w1.2.1, w1.2.2, w2.2.2⟩

/-- C9: identity parsing is total by construction (it returns an
`Option`, never raising), and it succeeds exactly on the strings that
contain a colon followed later by a slash. -/
theorem extract_pkg_info_eq (s : String) {a0 rest : List Char}
    (h1 : splitOnce ':' s.data = some (a0, rest)) :
    extract_pkg_info s
      = match splitOnce '/' rest with
        | none => none
        | some (e0, r) =>
          some (String.mk e0,
            String.mk (match splitOnce '@' r with | some (x, _) => x | none => r)) := by
  unfold extract_pkg_info
  rw [h1]

theorem extract_pkg_info_totality (s : String) :
    (∃ e n, extract_pkg_info s = some (e, n)) ↔
      ∃ a b : List Char, s.data = a ++ ':' :: b ∧ '/' ∈ b := by
  constructor
  · rintro ⟨e, n, h⟩
    cases h1 : splitOnce ':' s.data with
    | none =>
      unfold extract_pkg_info at h
      rw [h1] at h
      cases h
    | some p1 =>
      obtain ⟨a0, rest⟩ := p1
      rw [extract_pkg_info_eq s h1] at h
      cases h2 : splitOnce '/' rest with
      | none => rw [h2] at h; cases h
      | some p2 =>
        obtain ⟨e0, r⟩ := p2
        obtain ⟨hl, -⟩ := splitOnce_parts h1
        obtain ⟨hl2, -⟩ := splitOnce_parts h2
        exact ⟨a0, rest, hl, by rw [hl2]; simp⟩
  · rintro ⟨a, b, hdecomp, hmem⟩
    obtain ⟨a₀, b₀, hsp, hmem0⟩ := splitOnce_first_keeps_mem hdecomp hmem
    have hsome := splitOnce_isSome_of_mem hmem0
    cases h2 : splitOnce '/' b₀ with
    | none => rw [h2] at hsome; simp at hsome
    | some p =>
      obtain ⟨e0, r⟩ := p
      refine ⟨String.mk e0,
        String.mk (match splitOnce '@' r with | some (x, _) => x | none => r), ?_⟩
      rw [extract_pkg_info_eq s hsp, h2]

/-- Witness for C9: a well-shaped purl parses, a bare name does not. -/
theorem extract_pkg_info_totality_witness :
    (∃ e n, extract_pkg_info "pkg:npm/left-pad@1.0.0" = some (e, n))
    ∧ ¬ (∃ e n, extract_pkg_info "left-pad" = some (e, n)) := by
  constructor
  · exact (extract_pkg_info_totality "pkg:npm/left-pad@1.0.0").mpr
      ⟨"pkg".data, "npm/left-pad@1.0.0".data, by decide, by decide⟩
  · intro hcontra
    obtain ⟨a, b, hd, -⟩ := (extract_pkg_info_totality "left-pad").mp hcontra
    have hnot : ':' ∉ "left-pad".data := by decide
    exact hnot (by
      rw [hd]
      exact List.mem_append.mpr (Or.inr (List.mem_cons_self _ _)))

theorem checkUrl_contract (fetch : String → FetchResult) (eco name url : String) :
    (checkUrl fetch eco name url).requested = [url]
    ∧ (∀ s, fetch url = FetchResult.ok s →
        (s = 404 → verdictOf (checkUrl fetch eco name url).result = Verdict.NotFoundPublicly
            ∧ (checkUrl fetch eco name url).logs = [])
        ∧ (s = 200 → verdictOf (checkUrl fetch eco name url).result = Verdict.ExistsPublicly
            ∧ (checkUrl fetch eco name url).logs = [])
        ∧ (s ≠ 404 → s ≠ 200 → verdictOf (checkUrl fetch eco name url).result = Verdict.Unknown
            ∧ (checkUrl fetch eco name url).logs ≠ []))
    ∧ (∀ m, fetch url = FetchResult.exc m →
        verdictOf (checkUrl fetch eco name url).result = Verdict.Unknown
        ∧ (checkUrl fetch eco name url).logs ≠ []) := by
  refine ⟨?_, ?_, ?_⟩
  · unfold checkUrl
    cases fetch url with
    | ok s =>
      by_cases h4 : s = 404
      · simp [h4]
      · by_cases h2 : s = 200 <;> simp [h4, h2]
    | exc m => simp
  · intro s hs
    unfold checkUrl
    rw [hs]
    refine ⟨?_, ?_, ?_⟩
    · intro h4
      subst h4
      simp [verdictOf]
    · intro h2
      subst h2
      simp [verdictOf]
    · intro h4 h2
      simp [h4, h2, verdictOf]
  · intro m hm
    unfold checkUrl
    rw [hm]
    simp [verdictOf]

/-- C1: the registry check performs one GET for the supported
ecosystems, maps 404 to NotFoundPublicly, 200 to ExistsPublicly, any
other status to Unknown with a warning logged, and a network exception
to Unknown with an error logged; an unsupported ecosystem yields Unknown
with no request at all; and no outcome ever aborts the run - every
surviving purl still yields its report line. -/
theorem registry_check_contract (fetch : String → FetchResult) (eco name : String) :
    (¬ (eco = "pypi" ∨ eco = "npm") →
        check_public_registry fetch eco name = ⟨none, [], []⟩)
    ∧ ((eco = "pypi" ∨ eco = "npm") →
        ∃ url, (check_public_registry fetch eco name).requested = [url]
          ∧ (∀ s, fetch url = FetchResult.ok s →
              (s = 404 → verdictOf (check_public_registry fetch eco name).result
                  = Verdict.NotFoundPublicly
                  ∧ (check_public_registry fetch eco name).logs = [])
              ∧ (s = 200 → verdictOf (check_public_registry fetch eco name).result
                  = Verdict.ExistsPublicly
                  ∧ (check_public_registry fetch eco name).logs = [])
              ∧ (s ≠ 404 → s ≠ 200 → verdictOf (check_public_registry fetch eco name).result
                  = Verdict.Unknown
                  ∧ (check_public_registry fetch eco name).logs ≠ []))
          ∧ (∀ m, fetch url = FetchResult.exc m →
              verdictOf (check_public_registry fetch eco name).result = Verdict.Unknown
              ∧ (check_public_registry fetch eco name).logs ≠ []))
    ∧ (∀ purls : List String,
        (processPurls fetch purls).lines.length = purls.countP purlValid) := by
  refine ⟨?_, ?_, processPurls_lines_length fetch⟩
  · intro h
    have h1 : ¬ eco = "pypi" := fun hh => h (Or.inl hh)
    have h2 : ¬ eco = "npm" := fun hh => h (Or.inr hh)
    unfold check_public_registry
    rw [if_neg h1, if_neg h2]
  · intro h
    rcases h with h | h
    · subst h
      have hc : check_public_registry fetch "pypi" name
          = checkUrl fetch "pypi" name ("https://pypi.org/pypi/" ++ name ++ "/json") := by
        unfold check_public_registry
        rw [if_pos rfl]
      rw [hc]
      exact ⟨_, checkUrl_contract fetch "pypi" name _⟩
    · subst h
      have hc : check_public_registry fetch "npm" name
          = checkUrl fetch "npm" name ("https://registry.npmjs.org/" ++ name) := by
        unfold check_public_registry
        rw [if_neg (by decide), if_pos rfl]
      rw [hc]
      exact ⟨_, checkUrl_contract fetch "npm" name _⟩

/-- Witness for C1: an unsupported ecosystem fetches nothing, a 404 on
npm maps to NotFoundPublicly, and the loop still counts one line per
valid purl. -/
theorem registry_check_contract_witness :
    check_public_registry fetch404 "cargo" "serde" = ⟨none, [], []⟩
    ∧ verdictOf (check_public_registry fetch404 "npm" "left-pad").result
        = Verdict.NotFoundPublicly
    ∧ (processPurls fetch404 ["pkg:npm/left-pad@1.0.0"]).lines.length
        = (["pkg:npm/left-pad@1.0.0"] : List String).countP purlValid := by
  refine ⟨(registry_check_contract fetch404 "cargo" "serde").1 (by decide), ?_,
    (registry_check_contract fetch404 "npm" "left-pad").2.2 _⟩
  obtain ⟨url, -, hok, -⟩ :=
    (registry_check_contract fetch404 "npm" "left-pad").2.1 (Or.inr rfl)
  exact ((hok 404 rfl).1 rfl).1

/-- C4 counterexample: an SBOM listing npm left-pad under two distinct
purls (two versions) yields two report lines although it contains a
single distinct package identity, so a run does not produce one verdict
per distinct (ecosystem, name). -/
theorem same_identity_two_lines :
    (processPurls fetch404 (parse_purls twoVersionsDoc)).lines.length = 2
    ∧ ((parse_purls twoVersionsDoc).filterMap extract_pkg_info).dedup
        = [("npm", "left-pad")]
    ∧ (processPurls fetch404 (parse_purls twoVersionsDoc)).lines
        = ["[OK]   npm   left-pad not found publicly",
           "[OK]   npm   left-pad not found publicly"] := by
  refine ⟨by decide, by decide, by decide⟩

/-- C4 amended: deduplication is at purl-string level: the purl list is
duplicate-free and a run yields exactly one report line per distinct
purl that parses to a valid identity.  Identical purls therefore
collapse - the specification's end-to-end scenario yields its two-line
report - but one identity listed under two different purls yields one
line per purl. -/
theorem one_line_per_distinct_purl (doc : Sbom) (fetch : String → FetchResult) :
    (parse_purls doc).Nodup
    ∧ (processPurls fetch (parse_purls doc)).lines.length
        = (parse_purls doc).countP purlValid
    ∧ (processPurls fetchMock (parse_purls specDoc)).lines
        = ["[OK]   npm   left-pad not found publicly",
           "[WARN] pypi  requests EXISTS publicly - potential collision"] :=
  ⟨parse_purls_nodup doc, processPurls_lines_length fetch _, by decide⟩

theorem formatLine_last (eco name : String) (v : Option Bool) :
    ∃ c, c ≠ '\n' ∧ (formatLine eco name v).data.getLast? = some c := by
  have key : ∀ (x lit : String) (c : Char), lit.data.getLast? = some c →
      (x ++ lit).data.getLast? = some c := by
    intro x lit c hc
    rw [String.data_append, List.getLast?_append, hc]
    rfl
  cases v with
  | none =>
    exact ⟨'m', by decide, key _ " unknown status or unsupported ecosystem" 'm' (by decide)⟩
  | some b =>
    cases b with
    | false =>
      exact ⟨'y', by decide, key _ " not found publicly" 'y' (by decide)⟩
    | true =>
      exact ⟨'n', by decide, key _ " EXISTS publicly - potential collision" 'n' (by decide)⟩

theorem joinLines_last : ∀ ls : List String, ls ≠ [] →
    (∀ l ∈ ls, ∃ c, c ≠ '\n' ∧ l.data.getLast? = some c) →
    ∃ c, c ≠ '\n' ∧ (joinLines ls).data.getLast? = some c
  | [], h, _ => absurd rfl h
  | [l], _, h => h l (List.mem_cons_self _ _)
  | l :: l2 :: ls, _, h => by
    obtain ⟨c, hc, hlast⟩ := joinLines_last (l2 :: ls) (by simp)
      (fun x hx => h x (List.mem_cons_of_mem _ hx))
    refine ⟨c, hc, ?_⟩
    show (l ++ ("\n" ++ joinLines (l2 :: ls))).data.getLast? = some c
    rw [String.data_append, String.data_append, List.getLast?_append,
      List.getLast?_append, hlast]
    rfl

/-- C7: the report generator emits one formatted line per
(ecosystem, name, verdict) tuple - `[OK]` for NotFoundPublicly, `[WARN]`
for ExistsPublicly, `[INFO]` for Unknown - with the ecosystem padded
with spaces to a fixed five-character column; the content written to the
report file is the newline-join of those lines, which never carries a
trailing newline. -/
theorem report_generator_contract (tuples : List (String × String × Option Bool)) :
    (tuples.map (fun t => formatLine t.1 t.2.1 t.2.2)).length = tuples.length
    ∧ (∀ e n : String, formatLine e n (some false)
        = "[OK]   " ++ pad5 e ++ " " ++ n ++ " not found publicly")
    ∧ (∀ e n : String, formatLine e n (some true)
        = "[WARN] " ++ pad5 e ++ " " ++ n ++ " EXISTS publicly - potential collision")
    ∧ (∀ e n : String, formatLine e n none
        = "[INFO] " ++ pad5 e ++ " " ++ n ++ " unknown status or unsupported ecosystem")
    ∧ (∀ e : String, (pad5 e).length = max 5 e.length)
    ∧ decide ((joinLines (tuples.map (fun t => formatLine t.1 t.2.1 t.2.2))).data.getLast?
        ≠ some '\n') = true
    ∧ (∀ (env : Env) (argv : List Arg),
        (runMain argv env).reportWritten = none
        ∨ ∃ doc, env.sbomRead = Except.ok doc
            ∧ (runMain argv env).reportWritten
                = some (joinLines (processPurls env.fetch (parse_purls doc)).lines)) := by
  refine ⟨List.length_map _ _, fun e n => rfl, fun e n => rfl, fun e n => rfl, ?_, ?_, ?_⟩
  · intro e
    have hlen : (pad5 e).length = e.length + (5 - e.length) := by
      simp [pad5]
    rw [hlen]
    omega
  · cases tuples with
    | nil => decide
    | cons t ts =>
      obtain ⟨c, hc, hlast⟩ := joinLines_last ((t :: ts).map (fun t => formatLine t.1 t.2.1 t.2.2))
        (by simp)
        (fun l hl => by
          obtain ⟨tt, -, rfl⟩ := List.mem_map.mp hl
          exact formatLine_last _ _ _)
      apply decide_eq_true
      rw [hlast]
      intro heq
      exact hc (Option.some.inj heq)
  · intro env argv
    unfold runMain
    split
    · exact Or.inl rfl
    · split
      · exact Or.inl rfl
      · split
        · exact Or.inl rfl
        · split
          · exact Or.inl rfl
          · rename_i doc hdoc
            split
            · exact Or.inr ⟨doc, hdoc, rfl⟩
            · exact Or.inl rfl

theorem foldl_applyArg_directory : ∀ (argv : List Arg) (a0 : Args),
    (argv.foldl applyArg a0).directory.isSome = (a0.directory.isSome || hasDir argv) := by
  intro argv
  induction argv with
  | nil => intro a0; simp [hasDir]
  | cons x xs ih =>
    intro a0
    rw [List.foldl_cons, ih]
    cases x <;> simp [applyArg, hasDir, List.any_cons]

theorem foldl_applyArg_sbomIn : ∀ (argv : List Arg) (a0 : Args),
    (argv.foldl applyArg a0).sbomIn.isSome = (a0.sbomIn.isSome || hasSbomIn argv) := by
  intro argv
  induction argv with
  | nil => intro a0; simp [hasSbomIn]
  | cons x xs ih =>
    intro a0
    rw [List.foldl_cons, ih]
    cases x <;> simp [applyArg, hasSbomIn, List.any_cons]

/-- C8: exactly one of `--directory` and `--sbom-in` must be supplied:
an invocation with both, or with arguments but neither, is rejected at
argument-parsing time with the same outcome whatever the external world
is, so before any I/O; an invocation with no arguments at all prints the
help text and exits with status 1. -/
theorem cli_arg_validation (env : Env) :
    runMain [] env = ⟨1, true, none⟩
    ∧ (∀ argv : List Arg, argv ≠ [] →
        ((hasDir argv && hasSbomIn argv) = true ∨ (hasDir argv || hasSbomIn argv) = false) →
        runMain argv env = ⟨2, false, none⟩) := by
  constructor
  · rfl
  · intro argv hargv hbad
    have h1 : (argv.foldl applyArg defaultArgs).directory.isSome = hasDir argv := by
      rw [foldl_applyArg_directory]
      rfl
    have h2 : (argv.foldl applyArg defaultArgs).sbomIn.isSome = hasSbomIn argv := by
      rw [foldl_applyArg_sbomIn]
      rfl
    have hperr : parseArgs argv = Except.error () := by
      rcases hbad with hb | hb
      · simp [parseArgs, h1, h2, hb]
      · have hdd : hasDir argv = false ∧ hasSbomIn argv = false := by
          cases hd : hasDir argv <;> cases hs : hasSbomIn argv <;>
            rw [hd, hs] at hb <;> simp_all
        simp [parseArgs, h1, h2, hdd.1, hdd.2]
    simp [runMain, hargv, hperr]

/-- Witness for C8: no arguments, only `--report-out`, and both source
options, each at a concrete environment. -/
theorem cli_arg_validation_witness :
    runMain [] envOk = ⟨1, true, none⟩
    ∧ runMain [Arg.reportOut "r"] envOk = ⟨2, false, none⟩
    ∧ runMain [Arg.directory "d", Arg.sbomIn "s"] envOk = ⟨2, false, none⟩ := by
  refine ⟨(cli_arg_validation envOk).1, ?_, ?_⟩
  · exact (cli_arg_validation envOk).2 [Arg.reportOut "r"] (by decide) (Or.inr (by decide))
  · exact (cli_arg_validation envOk).2 [Arg.directory "d", Arg.sbomIn "s"] (by decide)
      (Or.inl (by decide))

/-- C6: a fully successful run exits 0; a failing scan subprocess makes
the run exit with the scan tool's own nonzero code; an unreadable or
malformed SBOM file and a failed report write each make the run
exit 1. -/
theorem exit_code_contract (env : Env) (argv : List Arg) (a : Args)
    (hargv : argv ≠ []) (hparse : parseArgs argv = Except.ok a) :
    ((a.sbomIn.isSome = true ∨ (env.trivyPresent = true ∧ env.scanExit = none)) →
        (∀ doc, env.sbomRead = Except.ok doc → env.writeOk = true →
            (runMain argv env).exitCode = 0)
        ∧ (env.sbomRead = Except.error () → (runMain argv env).exitCode = 1)
        ∧ (∀ doc, env.sbomRead = Except.ok doc → env.writeOk = false →
            (runMain argv env).exitCode = 1))
    ∧ (∀ c, c ≠ 0 → a.sbomIn = none → env.trivyPresent = true → env.scanExit = some c →
        (runMain argv env).exitCode = c) := by
  constructor
  · intro hsrc
    have hstep : resolveSbomSource a env = Except.ok () := by
      unfold resolveSbomSource
      rcases hsrc with hs | ⟨ht, hsc⟩
      · cases hsi : a.sbomIn with
        | none => rw [hsi] at hs; simp at hs
        | some v => simp
      · cases hsi : a.sbomIn with
        | some v => simp
        | none => simp [ht, hsc]
    refine ⟨?_, ?_, ?_⟩
    · intro doc hdoc hw
      simp [runMain, hargv, hparse, hstep, hdoc, hw]
    · intro hdoc
      simp [runMain, hargv, hparse, hstep, hdoc]
    · intro doc hdoc hw
      simp [runMain, hargv, hparse, hstep, hdoc, hw]
  · intro c hc hsi ht hsc
    have hstep : resolveSbomSource a env = Except.error c := by
      unfold resolveSbomSource
      simp [hsi, ht, hsc]
    simp [runMain, hargv, hparse, hstep]

/-- Witness for C6: the four exit paths at concrete environments. -/
theorem exit_code_contract_witness :
    (runMain [Arg.sbomIn "s"] envOk).exitCode = 0
    ∧ (runMain [Arg.sbomIn "s"] envParseFail).exitCode = 1
    ∧ (runMain [Arg.sbomIn "s"] envWriteFail).exitCode = 1
    ∧ (runMain [Arg.directory "d"] envScanFail).exitCode = 5 := by
  have hparse1 : parseArgs [Arg.sbomIn "s"]
      = Except.ok ⟨none, some "s", "sbom.json", "dependency_confusion_report.txt"⟩ := rfl
  have hparse2 : parseArgs [Arg.directory "d"]
      = Except.ok ⟨some "d", none, "sbom.json", "dependency_confusion_report.txt"⟩ := rfl
  refine ⟨?_, ?_, ?_, ?_⟩
  · exact ((exit_code_contract envOk [Arg.sbomIn "s"] _ (by decide) hparse1).1
      (Or.inl rfl)).1 ⟨[]⟩ rfl rfl
  · exact ((exit_code_contract envParseFail [Arg.sbomIn "s"] _ (by decide) hparse1).1
      (Or.inl rfl)).2.1 rfl
  · exact ((exit_code_contract envWriteFail [Arg.sbomIn "s"] _ (by decide) hparse1).1
      (Or.inl rfl)).2.2 ⟨[]⟩ rfl rfl
  · exact (exit_code_contract envScanFail [Arg.directory "d"] _ (by decide) hparse2).2
      5 (by decide) rfl rfl rfl
